import Mathlib

/-!
Shallow embedding of the v4l2 capture program (src/main.rs and src/pipe.rs).

Pure control flow is translated directly; interactions with the kernel
(the per-call result of write(2)/vmsplice(2), the per-iteration value of
the shutdown flag and the outcome of frame acquisition) are supplied by
explicit oracle lists, one entry per call the code would make.
-/

namespace V4l2Capture

/-- Embeds `get_four_bytes` from src/main.rs: `bytes.get(..4)` yields the
first four bytes when the string is at least four bytes long, and the
closure re-checks the length before `try_into` to a 4-byte array. -/
def get_four_bytes (s : List UInt8) : Option (List UInt8) :=
  (if 4 ≤ s.length then some (s.take 4) else none).bind fun slice =>
    if slice.length = 4 then
      if slice.length = 4 then some slice else none
    else none

/-- The file-type mask bits of `st_mode` (libc::S_IFMT = 0o170000). -/
def S_IFMT : Nat := 61440

/-- The pipe file-type bits of `st_mode` (libc::S_IFIFO = 0o010000). -/
def S_IFIFO : Nat := 4096

/-- Embeds `is_pipe` from src/main.rs and src/pipe.rs:
`mode & S_IFMT == S_IFIFO` on the destination file's mode bits. -/
def is_pipe (mode : Nat) : Bool := Nat.land mode S_IFMT == S_IFIFO

/-- State of the destination pipe visible to the program: its capacity
(as reported by F_GETPIPE_SZ) and the bytes delivered into it so far. -/
structure PipeSt where
  cap : Int
  delivered : List UInt8
deriving DecidableEq

/-- Embeds the success path of `set_pipe_max_size` from src/pipe.rs (and the
equivalent function in src/main.rs): read the OS maximum, compare with
F_GETPIPE_SZ, and raise the capacity via F_SETPIPE_SZ only when the current
capacity is strictly below the maximum. -/
def set_pipe_max_size (max_size : Int) (st : PipeSt) : PipeSt :=
  if st.cap < max_size then { st with cap := max_size } else st

/-- One result of a `vmsplice(2)` call, as matched in src/pipe.rs:
`Ok(n)` bytes accepted, `Err(EINTR)`, or another errno. -/
inductive VmRes where
  | ok (n : Nat)
  | eintr
  | fail (e : Nat)
deriving DecidableEq

/-- Outcome of `vmsplice_single_buffer`. `panicked` marks the
`unreachable!()` arm (vmsplice accepted 0 bytes of a non-empty buffer);
`sliceOob` marks the slice `buf[n..]` with `n` beyond the buffer (the
kernel never reports more bytes than submitted); `exhausted` means the
oracle supplied no result for a call the loop makes. -/
inductive VmOut where
  | ok
  | fail (e : Nat)
  | panicked
  | sliceOob
  | exhausted
deriving DecidableEq

/-- Embeds the `loop` body of `vmsplice_single_buffer` in src/pipe.rs.
Returns the outcome together with the bytes the kernel accepted, in order. -/
def vmsplice_loop : List UInt8 → List VmRes → VmOut × List UInt8
  | _, [] => (VmOut.exhausted, [])
  | buf, VmRes.ok n :: rest =>
    if n = buf.length then (VmOut.ok, buf)
    else if n ≠ 0 then
      if buf.length < n then (VmOut.sliceOob, [])
      else
        let p := vmsplice_loop (buf.drop n) rest
        (p.1, buf.take n ++ p.2)
    else (VmOut.panicked, [])
  | buf, VmRes.eintr :: rest => vmsplice_loop buf rest
  | _, VmRes.fail e :: _ => (VmOut.fail e, [])

/-- Embeds `vmsplice_single_buffer` from src/pipe.rs: an empty buffer
returns `Ok(())` at once, otherwise the vmsplice loop runs. -/
def vmsplice_single_buffer (buf : List UInt8) (oracle : List VmRes) :
    VmOut × List UInt8 :=
  if buf.isEmpty then (VmOut.ok, []) else vmsplice_loop buf oracle

/-- Well-formedness of a vmsplice oracle against the remaining buffer
length: every success accepts at least one byte (the claimed kernel
precondition) and never more than was submitted. -/
def vmValid : List VmRes → Nat → Bool
  | [], _ => true
  | VmRes.ok n :: rest, len => decide (1 ≤ n) && decide (n ≤ len) && vmValid rest (len - n)
  | VmRes.eintr :: rest, len => vmValid rest len
  | VmRes.fail _ :: _, _ => true

/-- Error kinds distinguished by the write path of src/main.rs.
`writeZero` is the error `write_all` raises when a write accepts 0 bytes;
`Interrupted` never escapes `write_all`, so it is absent here. -/
inductive ErrKind where
  | brokenPipe
  | writeZero
  | other
deriving DecidableEq

/-- One result of a `write(2)` call inside `write_all`. -/
inductive WRes where
  | ok (n : Nat)
  | interrupted
  | fail (k : ErrKind)
deriving DecidableEq

/-- Outcome of `write_all`; `sliceOob` and `exhausted` as for vmsplice. -/
inductive WaOut where
  | ok
  | err (k : ErrKind)
  | sliceOob
  | exhausted
deriving DecidableEq

/-- Embeds the default `std::io::Write::write_all` loop used at
src/main.rs line 141: while the buffer is non-empty, write; `Ok(0)` is a
WriteZero error, `Ok(n)` drops the written prefix, `Interrupted` retries
in place, any other error returns. Returns the outcome together with the
bytes delivered to the destination, in order. -/
def write_all : List UInt8 → List WRes → WaOut × List UInt8
  | [], _ => (WaOut.ok, [])
  | _ :: _, [] => (WaOut.exhausted, [])
  | b :: bs, WRes.ok n :: rest =>
    if n = 0 then (WaOut.err ErrKind.writeZero, [])
    else if (b :: bs).length < n then (WaOut.sliceOob, [])
    else
      let p := write_all ((b :: bs).drop n) rest
      (p.1, (b :: bs).take n ++ p.2)
  | b :: bs, WRes.interrupted :: rest => write_all (b :: bs) rest
  | _ :: _, WRes.fail k :: _ => (WaOut.err k, [])

/-- A zero-copy write into the pipe: the pipe state records the bytes the
kernel accepted; the capacity field is untouched (the write path of
src/pipe.rs performs no fcntl). -/
def pipe_sink_write (st : PipeSt) (buf : List UInt8) (oracle : List VmRes) :
    VmOut × PipeSt :=
  let p := vmsplice_single_buffer buf oracle
  (p.1, { st with delivered := st.delivered ++ p.2 })

/-- Outcome of one `stream.next()` call in the capture loop of src/main.rs:
a completed frame, an `ErrorKind::Interrupted` error, or any other error. -/
inductive AcqRes where
  | frame (buf : List UInt8)
  | interrupted
  | fatal
deriving DecidableEq

/-- Surface result of the `writer.write_all(buf)` call as matched by the
four arms at src/main.rs lines 141-149. -/
inductive WrOut where
  | ok
  | interrupted
  | brokenPipe
  | otherErr
deriving DecidableEq

/-- One iteration's worth of oracle data for the capture loop: the value
`running.load()` returns at the loop head, the acquisition outcome
(consulted only when the flag was true) and the write outcome (consulted
only when a frame was acquired). -/
structure Iter where
  running : Bool
  acq : AcqRes
  wr : WrOut
deriving DecidableEq

/-- Why the capture loop of src/main.rs terminated. -/
inductive StopReason where
  | flagCleared
  | limitReached
  | brokenPipe
  | writeError
  | acqError
  | traceEnd
deriving DecidableEq

/-- Result of a run of the capture loop: stop reason, final value of
`frame_count`, frames fully delivered to the sink in order, and the number
of error diagnostics printed to stderr (`eprintln!`) and to stdout
(`println!`) by the loop's error arms. -/
structure LoopResult where
  reason : StopReason
  count : Nat
  delivered : List (List UInt8)
  errStderr : Nat
  errStdout : Nat
deriving DecidableEq

/-- Prepends a delivered frame to a loop result. -/
def withFrame (buf : List UInt8) (r : LoopResult) : LoopResult :=
  ⟨r.reason, r.count, buf :: r.delivered, r.errStderr, r.errStdout⟩

/-- Embeds the `while running.load()` capture loop of src/main.rs
lines 130-161, driven by one `Iter` of oracle data per iteration.
`max_frames = m`, `frame_count = fc`. The write-`Interrupted` arm falls
through to the `frame_count` increment exactly as the code does. -/
def captureLoop (m fc : Nat) : List Iter → LoopResult
  | [] => ⟨StopReason.traceEnd, fc, [], 0, 0⟩
  | it :: rest =>
    if it.running then
      match it.acq with
      | AcqRes.frame buf =>
        match it.wr with
        | WrOut.ok =>
          if 0 < m ∧ m ≤ fc + 1 then ⟨StopReason.limitReached, fc + 1, [buf], 0, 0⟩
          else withFrame buf (captureLoop m (fc + 1) rest)
        | WrOut.interrupted =>
          if 0 < m ∧ m ≤ fc + 1 then ⟨StopReason.limitReached, fc + 1, [], 0, 0⟩
          else captureLoop m (fc + 1) rest
        | WrOut.brokenPipe => ⟨StopReason.brokenPipe, fc, [], 0, 0⟩
        | WrOut.otherErr => ⟨StopReason.writeError, fc, [], 1, 0⟩
      | AcqRes.interrupted => captureLoop m fc rest
      | AcqRes.fatal => ⟨StopReason.acqError, fc, [], 0, 1⟩
    else ⟨StopReason.flagCleared, fc, [], 0, 0⟩

/-- An iteration in which the flag is up, acquisition succeeds and the
write succeeds. -/
def goodIter (it : Iter) : Bool :=
  it.running
    && (match it.acq with | AcqRes.frame _ => true | _ => false)
    && (match it.wr with | WrOut.ok => true | _ => false)

/-- A trace of uniformly successful iterations. -/
def goodTrace (t : List Iter) : Bool := t.all goodIter

/-- A concrete successful iteration, used to instantiate theorems. -/
def gIt : Iter := ⟨true, AcqRes.frame [7], WrOut.ok⟩

/-- How the process of src/main.rs ends: `exit(1)` on too few arguments,
a panic from `.expect` on a malformed numeric or pixel-format argument,
a panic from `.expect` on device/stream/handler setup failure, or the
capture loop finishing and `main` returning normally. -/
inductive ExitWay where
  | usageError
  | parsePanic
  | startupPanic
  | loopDone (r : LoopResult)

/-- Process exit status for each way the program ends: `exit(1)` for
usage, 101 for a Rust panic, 0 when `main` returns after the loop. -/
def exit_status : ExitWay → Nat
  | ExitWay.usageError => 1
  | ExitWay.parsePanic => 101
  | ExitWay.startupPanic => 101
  | ExitWay.loopDone _ => 0

/-- The two frame-delivery strategies of the spec. -/
inductive SinkStrategy where
  | pipeZeroCopy
  | bufferedWrite
deriving DecidableEq

/-- Modelled from the spec: "If the path resolves to an existing pipe, the
pipe-zero-copy strategy is selected automatically; otherwise the
buffered-write strategy is selected", selected once at setup by probing
the destination's type. The capture-loop variant that dispatches frames to
`vmsplice_single_buffer` is not among the provided sources (src/main.rs
delivers every frame via `write_all` and src/pipe.rs declares the
zero-copy writer without a caller), so the one-time selection and its
dispatch are modelled here; the probe `is_pipe` and both delivery
functions are the embedded source functions. -/
def select_sink_strategy (destMode : Nat) : SinkStrategy :=
  if is_pipe destMode then SinkStrategy.pipeZeroCopy else SinkStrategy.bufferedWrite

/-- A delivery tagged with the strategy that performed it. -/
inductive Delivery where
  | viaVmsplice (out : VmOut × List UInt8)
  | viaWriteAll (out : WaOut × List UInt8)
deriving DecidableEq

/-- Modelled from the spec: dispatch of one frame through the selected
strategy ("routing each frame to an output sink that is either a buffered
write or a zero-copy kernel-level page transfer"). -/
def deliver_frame (s : SinkStrategy) (buf : List UInt8)
    (vo : List VmRes) (wo : List WRes) : Delivery :=
  match s with
  | SinkStrategy.pipeZeroCopy => Delivery.viaVmsplice (vmsplice_single_buffer buf vo)
  | SinkStrategy.bufferedWrite => Delivery.viaWriteAll (write_all buf wo)

/-- Modelled from the spec: a run probes the destination once and delivers
every frame of the run through the strategy selected by that probe. Each
job carries a frame and the kernel oracles for its delivery. -/
def run_deliveries (destMode : Nat)
    (jobs : List (List UInt8 × List VmRes × List WRes)) : List Delivery :=
  let s := select_sink_strategy destMode
  jobs.map fun j => deliver_frame s j.1 j.2.1 j.2.2

/-! ## Theorems -/

/-- Claim C10: `get_four_bytes` returns the first 4 bytes whenever the
string is at least 4 bytes long — so a longer pixel-format argument is
accepted with its trailing bytes silently ignored rather than rejected —
and returns `none` whenever the string is shorter. -/
theorem get_four_bytes_first_four (s : List UInt8) :
    (4 ≤ s.length → get_four_bytes s = some (s.take 4)) ∧
    (s.length < 4 → get_four_bytes s = none) := by
  constructor
  · intro h
    have hl : (s.take 4).length = 4 := by
      simp [List.length_take]
      omega
    simp [get_four_bytes, h, hl]
  · intro h
    simp [get_four_bytes, Nat.not_le.mpr h]

/-- Witness for C10: the 5-byte argument "MJPGX" yields the first four
bytes (the trailing byte is ignored), a 3-byte argument yields none. -/
theorem get_four_bytes_first_four_w :
    get_four_bytes [77, 74, 80, 71, 88] = some [77, 74, 80, 71] ∧
    get_four_bytes [77, 74, 80] = none := by
  constructor
  · exact (get_four_bytes_first_four [77, 74, 80, 71, 88]).1 (by decide)
  · exact (get_four_bytes_first_four [77, 74, 80]).2 (by decide)

/-- Claim C8: `set_pipe_max_size` never decreases the pipe capacity,
raises it to the OS-reported maximum exactly when the current capacity is
below it, is idempotent, and the zero-copy write path never changes the
capacity. -/
theorem pipe_capacity_monotone_idempotent (m : Int) (st : PipeSt) :
    st.cap ≤ (set_pipe_max_size m st).cap ∧
    (st.cap < m → (set_pipe_max_size m st).cap = m) ∧
    (m ≤ st.cap → set_pipe_max_size m st = st) ∧
    set_pipe_max_size m (set_pipe_max_size m st) = set_pipe_max_size m st ∧
    (∀ (buf : List UInt8) (oracle : List VmRes),
      (pipe_sink_write st buf oracle).2.cap = st.cap) := by
  refine ⟨?_, ?_, ?_, ?_, ?_⟩
  · by_cases h : st.cap < m
    · simp [set_pipe_max_size, h]
      omega
    · simp [set_pipe_max_size, h]
  · intro h; simp [set_pipe_max_size, h]
  · intro h; simp [set_pipe_max_size, Int.not_lt.mpr h]
  · by_cases h : st.cap < m <;> simp [set_pipe_max_size, h]
  · intro buf oracle; simp [pipe_sink_write]

/-- Witness for C8: a pipe at 65536 bytes is raised to a 1048576-byte
maximum once; a second application changes nothing. -/
theorem pipe_capacity_monotone_idempotent_w :
    (set_pipe_max_size 1048576 ⟨65536, []⟩).cap = 1048576 ∧
    set_pipe_max_size 1048576 (set_pipe_max_size 1048576 ⟨65536, []⟩) =
      set_pipe_max_size 1048576 ⟨65536, []⟩ ∧
    (pipe_sink_write ⟨1048576, []⟩ [9] [VmRes.ok 1]).2.cap = 1048576 := by
  refine ⟨?_, ?_, ?_⟩
  · exact (pipe_capacity_monotone_idempotent 1048576 ⟨65536, []⟩).2.1 (by decide)
  · exact (pipe_capacity_monotone_idempotent 1048576 ⟨65536, []⟩).2.2.2.1
  · exact (pipe_capacity_monotone_idempotent 1048576 ⟨1048576, []⟩).2.2.2.2 [9] [VmRes.ok 1]

/-- Claim C1: the strategy is selected once by probing the destination
with `is_pipe`: a pipe destination selects the pipe-zero-copy strategy and
every frame of the run is then delivered through `vmsplice_single_buffer`;
any other destination selects the buffered strategy and every frame is
delivered through `write_all`. Selection and dispatch are modelled from
the spec (see `select_sink_strategy`); the probe and the two delivery
functions are the embedded source functions. -/
theorem sink_strategy_selected_by_pipe_probe (destMode : Nat)
    (jobs : List (List UInt8 × List VmRes × List WRes)) :
    (is_pipe destMode = true →
      select_sink_strategy destMode = SinkStrategy.pipeZeroCopy ∧
      run_deliveries destMode jobs =
        jobs.map fun j => Delivery.viaVmsplice (vmsplice_single_buffer j.1 j.2.1)) ∧
    (is_pipe destMode = false →
      select_sink_strategy destMode = SinkStrategy.bufferedWrite ∧
      run_deliveries destMode jobs =
        jobs.map fun j => Delivery.viaWriteAll (write_all j.1 j.2.2)) := by
  constructor
  · intro h
    refine ⟨by simp [select_sink_strategy, h], ?_⟩
    simp [run_deliveries, select_sink_strategy, h, deliver_frame]
  · intro h
    refine ⟨by simp [select_sink_strategy, h], ?_⟩
    simp [run_deliveries, select_sink_strategy, h, deliver_frame]

/-- Witness for C1: a fifo mode (0o010600) selects zero-copy, a regular
file mode (0o100644) selects the buffered write, on a one-frame run. -/
theorem sink_strategy_selected_by_pipe_probe_w :
    select_sink_strategy 4480 = SinkStrategy.pipeZeroCopy ∧
    run_deliveries 4480 [([9], [VmRes.ok 1], [WRes.ok 1])] =
      [Delivery.viaVmsplice (vmsplice_single_buffer [9] [VmRes.ok 1])] ∧
    select_sink_strategy 33188 = SinkStrategy.bufferedWrite ∧
    run_deliveries 33188 [([9], [VmRes.ok 1], [WRes.ok 1])] =
      [Delivery.viaWriteAll (write_all [9] [WRes.ok 1])] := by
  refine ⟨?_, ?_, ?_, ?_⟩
  · exact ((sink_strategy_selected_by_pipe_probe 4480
      [([9], [VmRes.ok 1], [WRes.ok 1])]).1 (by decide)).1
  · exact ((sink_strategy_selected_by_pipe_probe 4480
      [([9], [VmRes.ok 1], [WRes.ok 1])]).1 (by decide)).2
  · exact ((sink_strategy_selected_by_pipe_probe 33188
      [([9], [VmRes.ok 1], [WRes.ok 1])]).2 (by decide)).1
  · exact ((sink_strategy_selected_by_pipe_probe 33188
      [([9], [VmRes.ok 1], [WRes.ok 1])]).2 (by decide)).2

/-- Claim C7: an interrupted blocking acquire is retried by the loop
without surfacing an error or stopping; an interrupted write inside
`write_all` is retried in place; an EINTR from vmsplice is retried in
place. None of the three consumes input or changes the result. -/
theorem interrupted_retried_invisible :
    (∀ (m fc : Nat) (rest : List Iter) (w : WrOut),
      captureLoop m fc (⟨true, AcqRes.interrupted, w⟩ :: rest) = captureLoop m fc rest) ∧
    (∀ (buf : List UInt8) (rest : List WRes),
      write_all buf (WRes.interrupted :: rest) = write_all buf rest) ∧
    (∀ (buf : List UInt8) (rest : List VmRes),
      vmsplice_single_buffer buf (VmRes.eintr :: rest) = vmsplice_single_buffer buf rest) := by
  refine ⟨?_, ?_, ?_⟩
  · intro m fc rest w
    simp [captureLoop]
  · intro buf rest
    cases buf <;> simp [write_all]
  · intro buf rest
    cases buf <;> simp [vmsplice_single_buffer, vmsplice_loop]

/-- Claim C5: a broken-pipe failure of the delivery write stops the loop
immediately with no error diagnostic on either stream, and the process
exits with the same successful status 0 as a frame-limit stop. -/
theorem broken_pipe_clean_stop (m fc : Nat) (buf : List UInt8) (it : Iter)
    (t2 : List Iter) (hr : it.running = true) (ha : it.acq = AcqRes.frame buf)
    (hw : it.wr = WrOut.brokenPipe) :
    captureLoop m fc (it :: t2) = ⟨StopReason.brokenPipe, fc, [], 0, 0⟩ ∧
    exit_status (ExitWay.loopDone (captureLoop m fc (it :: t2))) = 0 ∧
    exit_status (ExitWay.loopDone (captureLoop m fc (it :: t2))) =
      exit_status (ExitWay.loopDone (captureLoop (fc + 1) fc (gIt :: t2))) := by
  rcases it with ⟨r, a, w⟩
  simp only at hr ha hw
  subst hr; subst ha; subst hw
  refine ⟨by simp [captureLoop], by simp [exit_status], by simp [exit_status]⟩

/-- Witness for C5: the reader vanishes on the very first write. -/
theorem broken_pipe_clean_stop_w :
    captureLoop 0 0 [⟨true, AcqRes.frame [7], WrOut.brokenPipe⟩] =
      ⟨StopReason.brokenPipe, 0, [], 0, 0⟩ ∧
    exit_status (ExitWay.loopDone
      (captureLoop 0 0 [⟨true, AcqRes.frame [7], WrOut.brokenPipe⟩])) = 0 := by
  have h := broken_pipe_clean_stop 0 0 [7]
    ⟨true, AcqRes.frame [7], WrOut.brokenPipe⟩ [] rfl rfl rfl
  exact ⟨h.1, h.2.1⟩

/-- Counterexample to C2 as stated: a run that ends in a fatal runtime
acquisition failure exits with status 0, the same successful status as a
clean frame-limit stop, and its diagnostic goes to stdout (`println!`),
not to the error stream. -/
theorem runtime_error_exit_matches_clean_stop :
    exit_status (ExitWay.loopDone (captureLoop 0 0 [⟨true, AcqRes.fatal, WrOut.ok⟩])) =
      exit_status (ExitWay.loopDone (captureLoop 1 0 [gIt])) ∧
    (captureLoop 0 0 [⟨true, AcqRes.fatal, WrOut.ok⟩]).reason = StopReason.acqError ∧
    (captureLoop 1 0 [gIt]).reason = StopReason.limitReached ∧
    (captureLoop 0 0 [⟨true, AcqRes.fatal, WrOut.ok⟩]).errStdout = 1 ∧
    (captureLoop 0 0 [⟨true, AcqRes.fatal, WrOut.ok⟩]).errStderr = 0 := by
  refine ⟨rfl, ?_, ?_, rfl, rfl⟩ <;> simp [captureLoop, gIt]

/-- Claim C2 as amended: usage errors exit 1 and startup panics (malformed
configuration input as well as device failures) exit 101, but every loop
termination — clean stop or fatal runtime error — exits with the same
successful status 0; a fatal delivery error prints one diagnostic to
stderr while a fatal acquisition error prints its diagnostic to stdout. -/
theorem exit_status_classification :
    exit_status ExitWay.usageError = 1 ∧
    exit_status ExitWay.parsePanic = 101 ∧
    exit_status ExitWay.startupPanic = 101 ∧
    (∀ r : LoopResult, exit_status (ExitWay.loopDone r) = 0) ∧
    (∀ (m fc : Nat) (buf : List UInt8) (t : List Iter),
      captureLoop m fc (⟨true, AcqRes.frame buf, WrOut.otherErr⟩ :: t) =
        ⟨StopReason.writeError, fc, [], 1, 0⟩) ∧
    (∀ (m fc : Nat) (w : WrOut) (t : List Iter),
      captureLoop m fc (⟨true, AcqRes.fatal, w⟩ :: t) =
        ⟨StopReason.acqError, fc, [], 0, 1⟩) := by
  refine ⟨rfl, rfl, rfl, fun r => rfl, ?_, ?_⟩
  · intro m fc buf t; simp [captureLoop]
  · intro m fc w t; simp [captureLoop]

/-- If the `write_all` loop returns Ok, the bytes it delivered are exactly
the whole input buffer. -/
theorem write_all_ok_delivers_all :
    ∀ (oracle : List WRes) (buf : List UInt8),
      (write_all buf oracle).1 = WaOut.ok → (write_all buf oracle).2 = buf := by
  intro oracle
  induction oracle with
  | nil =>
    intro buf h
    cases buf with
    | nil => simp [write_all]
    | cons b bs => simp [write_all] at h
  | cons r rest ih =>
    intro buf h
    cases buf with
    | nil => simp [write_all]
    | cons b bs =>
      cases r with
      | ok n =>
        by_cases hn : n = 0
        · simp [write_all, hn] at h
        · by_cases hlen : (b :: bs).length < n
          · have hob : write_all (b :: bs) (WRes.ok n :: rest) = (WaOut.sliceOob, []) := by
              simp only [write_all]
              rw [if_neg hn, if_pos hlen]
            rw [hob] at h
            simp at h
          · have heq : write_all (b :: bs) (WRes.ok n :: rest) =
                ((write_all ((b :: bs).drop n) rest).1,
                  (b :: bs).take n ++ (write_all ((b :: bs).drop n) rest).2) := by
              simp only [write_all]
              rw [if_neg hn, if_neg hlen]
            rw [heq] at h ⊢
            have h2 := ih ((b :: bs).drop n) h
            simp [h2, List.take_append_drop]
      | interrupted =>
        simp only [write_all] at h ⊢
        exact ih (b :: bs) h
      | fail k => simp [write_all] at h


/-- If the vmsplice loop returns Ok, the bytes the kernel accepted are
exactly the whole input buffer. -/
theorem vmsplice_loop_ok_delivers_all :
    ∀ (oracle : List VmRes) (buf : List UInt8),
      (vmsplice_loop buf oracle).1 = VmOut.ok → (vmsplice_loop buf oracle).2 = buf := by
  intro oracle
  induction oracle with
  | nil => intro buf h; simp [vmsplice_loop] at h
  | cons r rest ih =>
    intro buf h
    cases r with
    | ok n =>
      by_cases hn : n = buf.length
      · have hok : vmsplice_loop buf (VmRes.ok n :: rest) = (VmOut.ok, buf) := by
          simp only [vmsplice_loop]
          rw [if_pos hn]
        rw [hok]
      · by_cases h0 : n = 0
        · have hpa : vmsplice_loop buf (VmRes.ok n :: rest) = (VmOut.panicked, []) := by
            simp only [vmsplice_loop]
            rw [if_neg hn, if_neg (by simp [h0])]
          rw [hpa] at h
          simp at h
        · by_cases hlen : buf.length < n
          · have hob : vmsplice_loop buf (VmRes.ok n :: rest) = (VmOut.sliceOob, []) := by
              simp only [vmsplice_loop]
              rw [if_neg hn, if_pos h0, if_pos hlen]
            rw [hob] at h
            simp at h
          · have heq : vmsplice_loop buf (VmRes.ok n :: rest) =
                ((vmsplice_loop (buf.drop n) rest).1,
                  buf.take n ++ (vmsplice_loop (buf.drop n) rest).2) := by
              simp only [vmsplice_loop]
              rw [if_neg hn, if_pos h0, if_neg hlen]
            rw [heq] at h ⊢
            have h2 := ih (buf.drop n) h
            simp [h2, List.take_append_drop]
    | eintr =>
      simp only [vmsplice_loop] at h ⊢
      exact ih buf h
    | fail e => simp [vmsplice_loop] at h

/-- Claim C6: a successful sink write delivers every byte of the frame:
`write_all` returning Ok delivered exactly the whole buffer,
`vmsplice_single_buffer` returning Ok delivered exactly the whole buffer,
and an empty frame is a no-op success of the zero-copy sink. -/
theorem sink_write_delivers_whole_frame :
    (∀ (buf : List UInt8) (oracle : List WRes),
      (write_all buf oracle).1 = WaOut.ok → (write_all buf oracle).2 = buf) ∧
    (∀ (buf : List UInt8) (oracle : List VmRes),
      (vmsplice_single_buffer buf oracle).1 = VmOut.ok →
        (vmsplice_single_buffer buf oracle).2 = buf) ∧
    (∀ oracle : List VmRes, vmsplice_single_buffer [] oracle = (VmOut.ok, [])) := by
  refine ⟨fun buf oracle => write_all_ok_delivers_all oracle buf, ?_, ?_⟩
  · intro buf oracle h
    cases buf with
    | nil => simp [vmsplice_single_buffer]
    | cons b bs =>
      simp only [vmsplice_single_buffer, List.isEmpty_cons, Bool.false_eq_true,
        if_false] at h ⊢
      exact vmsplice_loop_ok_delivers_all oracle (b :: bs) h
  · intro oracle
    simp [vmsplice_single_buffer]

/-- Witness for C6: a partial write of 1 byte then 2 bytes delivers all of
[1, 2, 3]; an interrupted then partial vmsplice delivers all of [5, 6, 7];
the empty frame is a no-op success. -/
theorem sink_write_delivers_whole_frame_w :
    (write_all [1, 2, 3] [WRes.ok 1, WRes.interrupted, WRes.ok 2]).2 = [1, 2, 3] ∧
    (vmsplice_single_buffer [5, 6, 7] [VmRes.eintr, VmRes.ok 2, VmRes.ok 1]).2 = [5, 6, 7] ∧
    vmsplice_single_buffer [] [] = (VmOut.ok, []) :=
  ⟨sink_write_delivers_whole_frame.1 [1, 2, 3]
      [WRes.ok 1, WRes.interrupted, WRes.ok 2] (by decide),
    sink_write_delivers_whole_frame.2.1 [5, 6, 7]
      [VmRes.eintr, VmRes.ok 2, VmRes.ok 1] (by decide),
    sink_write_delivers_whole_frame.2.2 []⟩

/-- Under a well-formed oracle (every success accepts between 1 byte and
the remaining length) the vmsplice loop hits neither the `unreachable!()`
arm nor an out-of-range slice. -/
theorem vmsplice_loop_no_panic :
    ∀ (oracle : List VmRes) (buf : List UInt8),
      vmValid oracle buf.length = true →
      (vmsplice_loop buf oracle).1 ≠ VmOut.panicked ∧
      (vmsplice_loop buf oracle).1 ≠ VmOut.sliceOob := by
  intro oracle
  induction oracle with
  | nil => intro buf hv; simp [vmsplice_loop]
  | cons r rest ih =>
    intro buf hv
    cases r with
    | ok n =>
      simp only [vmValid, Bool.and_eq_true, decide_eq_true_eq] at hv
      obtain ⟨⟨h1, h2⟩, h3⟩ := hv
      by_cases hn : n = buf.length
      · have hok : vmsplice_loop buf (VmRes.ok n :: rest) = (VmOut.ok, buf) := by
          simp only [vmsplice_loop]
          rw [if_pos hn]
        simp [hok]
      · have h0 : ¬n = 0 := by omega
        have hlen : ¬buf.length < n := by omega
        have heq : vmsplice_loop buf (VmRes.ok n :: rest) =
            ((vmsplice_loop (buf.drop n) rest).1,
              buf.take n ++ (vmsplice_loop (buf.drop n) rest).2) := by
          simp only [vmsplice_loop]
          rw [if_neg hn, if_pos h0, if_neg hlen]
        rw [heq]
        have hv2 : vmValid rest (buf.drop n).length = true := by
          rw [List.length_drop]
          exact h3
        exact ih (buf.drop n) hv2
    | eintr =>
      simp only [vmValid] at hv
      simp only [vmsplice_loop]
      exact ih buf hv
    | fail e => simp [vmsplice_loop]

/-- Claim C9: under the precondition that every successful vmsplice on a
non-empty buffer accepts at least one byte (and at most the submitted
length), `vmsplice_single_buffer` never reaches the `unreachable!()` panic
nor an out-of-range slice, and every successful loop iteration either
returns Ok or continues on a strictly shorter remaining buffer, so the
loop is total for every finite sequence of syscall results. -/
theorem vmsplice_no_unreachable_and_progress :
    (∀ (buf : List UInt8) (oracle : List VmRes),
      vmValid oracle buf.length = true →
      (vmsplice_single_buffer buf oracle).1 ≠ VmOut.panicked ∧
      (vmsplice_single_buffer buf oracle).1 ≠ VmOut.sliceOob) ∧
    (∀ (buf : List UInt8) (rest : List VmRes) (n : Nat), 1 ≤ n → n ≤ buf.length →
      (vmsplice_loop buf (VmRes.ok n :: rest) = (VmOut.ok, buf) ∧ n = buf.length) ∨
      ((vmsplice_loop buf (VmRes.ok n :: rest)).1 = (vmsplice_loop (buf.drop n) rest).1 ∧
        (buf.drop n).length < buf.length)) := by
  constructor
  · intro buf oracle hv
    cases buf with
    | nil => simp [vmsplice_single_buffer]
    | cons b bs =>
      simp only [vmsplice_single_buffer, List.isEmpty_cons, Bool.false_eq_true, if_false]
      exact vmsplice_loop_no_panic oracle (b :: bs) hv
  · intro buf rest n h1 hn
    by_cases heq : n = buf.length
    · left
      refine ⟨?_, heq⟩
      simp only [vmsplice_loop]
      rw [if_pos heq]
    · right
      have h0 : ¬n = 0 := by omega
      have hlen : ¬buf.length < n := by omega
      constructor
      · have hrw : vmsplice_loop buf (VmRes.ok n :: rest) =
            ((vmsplice_loop (buf.drop n) rest).1,
              buf.take n ++ (vmsplice_loop (buf.drop n) rest).2) := by
          simp only [vmsplice_loop]
          rw [if_neg heq, if_pos h0, if_neg hlen]
        rw [hrw]
      · rw [List.length_drop]
        omega

/-- Witness for C9: a 3-byte buffer under an oracle that accepts 2 then 1
bytes neither panics nor slices out of range, and the partial 2-byte
acceptance strictly shrinks the remainder. -/
theorem vmsplice_no_unreachable_and_progress_w :
    (vmsplice_single_buffer [1, 2, 3] [VmRes.ok 2, VmRes.ok 1]).1 ≠ VmOut.panicked ∧
    (((vmsplice_loop [1, 2, 3] [VmRes.ok 2, VmRes.ok 1] = (VmOut.ok, [1, 2, 3]) ∧
        2 = ([1, 2, 3] : List UInt8).length)) ∨
      ((vmsplice_loop [1, 2, 3] [VmRes.ok 2, VmRes.ok 1]).1 =
          (vmsplice_loop (([1, 2, 3] : List UInt8).drop 2) [VmRes.ok 1]).1 ∧
        (([1, 2, 3] : List UInt8).drop 2).length < ([1, 2, 3] : List UInt8).length)) :=
  ⟨(vmsplice_no_unreachable_and_progress.1 [1, 2, 3] [VmRes.ok 2, VmRes.ok 1] (by decide)).1,
    vmsplice_no_unreachable_and_progress.2 [1, 2, 3] [VmRes.ok 1] 2 (by decide) (by decide)⟩

/-- A loop iteration that observes the shutdown flag cleared stops at once
with no delivery and no diagnostics. -/
theorem captureLoop_cons_false (m fc : Nat) (it : Iter) (t : List Iter)
    (hit : it.running = false) :
    captureLoop m fc (it :: t) = ⟨StopReason.flagCleared, fc, [], 0, 0⟩ := by
  simp [captureLoop, hit]

/-- Everything after the iteration that observes the flag cleared is
irrelevant to the run: the loop never looks at the rest of the trace. -/
theorem captureLoop_tail_after_flag (m : Nat) (it : Iter) (hit : it.running = false) :
    ∀ (t1 t2 : List Iter) (fc : Nat),
      captureLoop m fc (t1 ++ it :: t2) = captureLoop m fc (t1 ++ [it]) := by
  intro t1
  induction t1 with
  | nil =>
    intro t2 fc
    simp only [List.nil_append]
    rw [captureLoop_cons_false m fc it t2 hit, captureLoop_cons_false m fc it [] hit]
  | cons it1 t1 ih =>
    intro t2 fc
    rcases it1 with ⟨r, a, w⟩
    cases r
    · simp [captureLoop]
    · cases a with
      | interrupted =>
        simpa [captureLoop] using ih t2 fc
      | fatal => simp [captureLoop]
      | frame buf =>
        cases w with
        | ok =>
          by_cases hL : 0 < m ∧ m ≤ fc + 1
          · simp [captureLoop, hL]
          · simp [captureLoop, hL, ih t2 (fc + 1)]
        | interrupted =>
          by_cases hL : 0 < m ∧ m ≤ fc + 1
          · simp [captureLoop, hL]
          · simpa [captureLoop, hL] using ih t2 (fc + 1)
        | brokenPipe => simp [captureLoop]
        | otherErr => simp [captureLoop]

/-- Claim C4: once the flag is observed false the loop stops within the
current cycle: the run is unchanged if everything after that observation
is removed from the trace (no further acquisition is started, no further
frame is delivered), and the iteration observing the cleared flag itself
acquires and delivers nothing. -/
theorem shutdown_flag_stops_loop (m fc : Nat) (it : Iter) (t1 t2 : List Iter)
    (hit : it.running = false) :
    captureLoop m fc (t1 ++ it :: t2) = captureLoop m fc (t1 ++ [it]) ∧
    captureLoop m fc (it :: t2) = ⟨StopReason.flagCleared, fc, [], 0, 0⟩ :=
  ⟨captureLoop_tail_after_flag m it hit t1 t2 fc,
    captureLoop_cons_false m fc it t2 hit⟩

/-- Witness for C4: a run whose second iteration observes the cleared flag
equals the run truncated there. -/
theorem shutdown_flag_stops_loop_w :
    captureLoop 0 0 ([gIt] ++ Iter.mk false (AcqRes.frame [7]) WrOut.ok :: [gIt]) =
      captureLoop 0 0 ([gIt] ++ [Iter.mk false (AcqRes.frame [7]) WrOut.ok]) ∧
    captureLoop 0 0 (Iter.mk false (AcqRes.frame [7]) WrOut.ok :: [gIt]) =
      ⟨StopReason.flagCleared, 0, [], 0, 0⟩ :=
  shutdown_flag_stops_loop 0 0 (Iter.mk false (AcqRes.frame [7]) WrOut.ok)
    [gIt] [gIt] rfl

/-- With a positive limit, a trace of uniformly successful iterations long
enough to reach the limit makes the loop stop at exactly the limit. -/
theorem captureLoop_good_limit (m : Nat) :
    ∀ (t : List Iter) (fc : Nat), goodTrace t = true → 0 < m → fc < m →
      m - fc ≤ t.length →
      (captureLoop m fc t).reason = StopReason.limitReached ∧
      (captureLoop m fc t).count = m ∧
      (captureLoop m fc t).delivered.length = m - fc ∧
      (captureLoop m fc t).errStderr = 0 ∧
      (captureLoop m fc t).errStdout = 0 := by
  intro t
  induction t with
  | nil =>
    intro fc hg hm hfc hlen
    exfalso
    simp only [List.length_nil, Nat.le_zero] at hlen
    omega
  | cons it rest ih =>
    intro fc hg hm hfc hlen
    rcases it with ⟨r, a, w⟩
    simp only [goodTrace, List.all_cons, Bool.and_eq_true] at hg
    obtain ⟨hit, hrest⟩ := hg
    cases r
    · simp [goodIter] at hit
    · cases a with
      | interrupted => simp [goodIter] at hit
      | fatal => simp [goodIter] at hit
      | frame buf =>
        cases w with
        | interrupted => simp [goodIter] at hit
        | brokenPipe => simp [goodIter] at hit
        | otherErr => simp [goodIter] at hit
        | ok =>
          by_cases hL : 0 < m ∧ m ≤ fc + 1
          · have hrec : captureLoop m fc (Iter.mk true (AcqRes.frame buf) WrOut.ok :: rest) =
                ⟨StopReason.limitReached, fc + 1, [buf], 0, 0⟩ := by
              simp [captureLoop, hL]
            rw [hrec]
            refine ⟨rfl, ?_, ?_, rfl, rfl⟩
            · show fc + 1 = m
              omega
            · show ([buf] : List (List UInt8)).length = m - fc
              simp only [List.length_singleton]
              omega
          · have hfc1 : fc + 1 < m := by omega
            have hlen1 : m - (fc + 1) ≤ rest.length := by
              simp only [List.length_cons] at hlen
              omega
            have hrec : captureLoop m fc (Iter.mk true (AcqRes.frame buf) WrOut.ok :: rest) =
                withFrame buf (captureLoop m (fc + 1) rest) := by
              simp [captureLoop, hL]
            obtain ⟨e1, e2, e3, e4, e5⟩ := ih (fc + 1) hrest hm hfc1 hlen1
            rw [hrec]
            refine ⟨?_, ?_, ?_, ?_, ?_⟩
            · simpa [withFrame] using e1
            · simpa [withFrame] using e2
            · simp only [withFrame, List.length_cons]
              rw [e3]
              omega
            · simpa [withFrame] using e4
            · simpa [withFrame] using e5

/-- With limit 0 (the default) the frame count never stops the loop: a
uniformly successful trace is consumed whole. -/
theorem captureLoop_good_unbounded :
    ∀ (t : List Iter) (fc : Nat), goodTrace t = true →
      (captureLoop 0 fc t).reason = StopReason.traceEnd ∧
      (captureLoop 0 fc t).count = fc + t.length ∧
      (captureLoop 0 fc t).delivered.length = t.length := by
  intro t
  induction t with
  | nil => intro fc hg; simp [captureLoop]
  | cons it rest ih =>
    intro fc hg
    rcases it with ⟨r, a, w⟩
    simp only [goodTrace, List.all_cons, Bool.and_eq_true] at hg
    obtain ⟨hit, hrest⟩ := hg
    cases r
    · simp [goodIter] at hit
    · cases a with
      | interrupted => simp [goodIter] at hit
      | fatal => simp [goodIter] at hit
      | frame buf =>
        cases w with
        | interrupted => simp [goodIter] at hit
        | brokenPipe => simp [goodIter] at hit
        | otherErr => simp [goodIter] at hit
        | ok =>
          have hrec : captureLoop 0 fc (Iter.mk true (AcqRes.frame buf) WrOut.ok :: rest) =
              withFrame buf (captureLoop 0 (fc + 1) rest) := by
            simp [captureLoop]
          obtain ⟨e1, e2, e3⟩ := ih (fc + 1) hrest
          rw [hrec]
          refine ⟨?_, ?_, ?_⟩
          · simpa [withFrame] using e1
          · simp only [withFrame, List.length_cons]
            rw [e2]
            omega
          · simp only [withFrame, List.length_cons]
            rw [e3]

/-- Claim C3: for every configured limit N > 0, a run whose acquisitions
and deliveries all succeed delivers exactly N frames and stops at the
limit (in particular for N = 1, N = 4 and N larger than the ring, see the
witness); with limit 0 the frame count never stops the loop. -/
theorem frame_limit_bounds_run :
    (∀ (N : Nat) (t : List Iter), 0 < N → N ≤ t.length → goodTrace t = true →
      (captureLoop N 0 t).reason = StopReason.limitReached ∧
      (captureLoop N 0 t).count = N ∧
      (captureLoop N 0 t).delivered.length = N) ∧
    (∀ (t : List Iter), goodTrace t = true →
      (captureLoop 0 0 t).reason = StopReason.traceEnd ∧
      (captureLoop 0 0 t).count = t.length ∧
      (captureLoop 0 0 t).delivered.length = t.length) := by
  constructor
  · intro N t hN hlen hg
    obtain ⟨e1, e2, e3, _, _⟩ :=
      captureLoop_good_limit N t 0 hg hN hN (by simpa using hlen)
    exact ⟨e1, e2, by simpa using e3⟩
  · intro t hg
    obtain ⟨e1, e2, e3⟩ := captureLoop_good_unbounded t 0 hg
    exact ⟨e1, by simpa using e2, e3⟩

/-- Witness for C3: N = 1, N = 4 (the ring size) and N = 10 (larger than
the ring) each deliver exactly N frames on a longer successful trace, and
limit 0 consumes a 5-iteration trace without stopping at any count. -/
theorem frame_limit_bounds_run_w :
    (captureLoop 1 0 (List.replicate 3 gIt)).count = 1 ∧
    (captureLoop 1 0 (List.replicate 3 gIt)).reason = StopReason.limitReached ∧
    (captureLoop 4 0 (List.replicate 6 gIt)).count = 4 ∧
    (captureLoop 4 0 (List.replicate 6 gIt)).reason = StopReason.limitReached ∧
    (captureLoop 10 0 (List.replicate 12 gIt)).delivered.length = 10 ∧
    (captureLoop 0 0 (List.replicate 5 gIt)).reason = StopReason.traceEnd ∧
    (captureLoop 0 0 (List.replicate 5 gIt)).count = 5 :=
  ⟨(frame_limit_bounds_run.1 1 (List.replicate 3 gIt) (by decide) (by decide) (by decide)).2.1,
    (frame_limit_bounds_run.1 1 (List.replicate 3 gIt) (by decide) (by decide) (by decide)).1,
    (frame_limit_bounds_run.1 4 (List.replicate 6 gIt) (by decide) (by decide) (by decide)).2.1,
    (frame_limit_bounds_run.1 4 (List.replicate 6 gIt) (by decide) (by decide) (by decide)).1,
    (frame_limit_bounds_run.1 10 (List.replicate 12 gIt) (by decide) (by decide) (by decide)).2.2,
    (frame_limit_bounds_run.2 (List.replicate 5 gIt) (by decide)).1,
    (frame_limit_bounds_run.2 (List.replicate 5 gIt) (by decide)).2.1⟩

end V4l2Capture
